import Mathlib

/-!
Verification of the caching and refresh subsystem of the nepse-app backend
(`backend/app.py` together with `backend/services/nepse_service.py`).

The embedding abstracts a market-data record to an integer (its
`changePercent` field, the only field the core logic inspects, in the
sorted fallback of `NepseService.get_top_gainers`); a payload is a list of
records.  Python truthiness of a fetched payload (`if data:`) becomes
non-emptiness of the list.  Timestamps are integers counting seconds;
`datetime.now() - last_updated` with `.total_seconds() < CACHE_TIMEOUT`
becomes integer subtraction compared with the TTL (sub-second resolution
is immaterial to every property below).  The process-wide `CACHE_TIMEOUT`
is passed as an explicit `ttl` argument.
-/

namespace NepseApp

/-- A market-data record, abstracted to its `changePercent` value. -/
abbrev Rec := Int

/-- A fetched payload: a list of records (`data` in the Python code). -/
abbrev Payload := List Rec

/-- Python truthiness of a payload: `if data:` is true iff the list is
non-empty. -/
def truthy (v : Payload) : Bool := !v.isEmpty

/-- One cache slot: `{'data': ..., 'last_updated': ...}` in `app.py`. -/
structure CacheEntry where
  data : Option Payload
  last_updated : Option Int
  deriving Repr, DecidableEq

/-- The fixed set of cached category keys (`cache` dict in `app.py`,
lines 38-45). -/
inductive CKey where
  | stocks
  | indices
  | top_gainers
  | top_losers
  | sectors
  | merolagani_latest
  deriving Repr, DecidableEq

/-- The cache: one entry per fixed category key (the module-level `cache`
dict; keys are fixed at startup, never inserted or removed). -/
structure Cache where
  stocks : CacheEntry
  indices : CacheEntry
  top_gainers : CacheEntry
  top_losers : CacheEntry
  sectors : CacheEntry
  merolagani_latest : CacheEntry
  deriving Repr, DecidableEq

def Cache.get (c : Cache) : CKey → CacheEntry
  | .stocks => c.stocks
  | .indices => c.indices
  | .top_gainers => c.top_gainers
  | .top_losers => c.top_losers
  | .sectors => c.sectors
  | .merolagani_latest => c.merolagani_latest

def Cache.set (c : Cache) : CKey → CacheEntry → Cache
  | .stocks, e => { c with stocks := e }
  | .indices, e => { c with indices := e }
  | .top_gainers, e => { c with top_gainers := e }
  | .top_losers, e => { c with top_losers := e }
  | .sectors, e => { c with sectors := e }
  | .merolagani_latest, e => { c with merolagani_latest := e }

/-- The cache at process start: every entry is
`{'data': None, 'last_updated': None}`. -/
def initCache : Cache :=
  ⟨⟨none, none⟩, ⟨none, none⟩, ⟨none, none⟩, ⟨none, none⟩, ⟨none, none⟩, ⟨none, none⟩⟩

/-- The dictionary key string of each category, as written in `app.py`. -/
def CKey.name : CKey → String
  | .stocks => "stocks"
  | .indices => "indices"
  | .top_gainers => "top_gainers"
  | .top_losers => "top_losers"
  | .sectors => "sectors"
  | .merolagani_latest => "merolagani_latest"

/-- Membership test of a string in the `cache` dict
(`cache_key not in cache` in `is_cache_valid`). -/
def keyOfString (s : String) : Option CKey :=
  if s = "stocks" then some .stocks
  else if s = "indices" then some .indices
  else if s = "top_gainers" then some .top_gainers
  else if s = "top_losers" then some .top_losers
  else if s = "sectors" then some .sectors
  else if s = "merolagani_latest" then some .merolagani_latest
  else none

/-- Embedding of `is_cache_valid` (`app.py`, lines 88-94): false when the key is not in
the cache dict, or `data` is `None`, or `last_updated` is `None`;
otherwise true iff `(now - last_updated).total_seconds() < CACHE_TIMEOUT`. -/
def is_cache_valid (c : Cache) (ttl now : Int) (cache_key : String) : Bool :=
  match keyOfString cache_key with
  | none => false
  | some k =>
    match (c.get k).data, (c.get k).last_updated with
    | some _, some t => decide (now - t < ttl)
    | _, _ => false

/-- The pair of assignments `cache[k]['data'] = v;
cache[k]['last_updated'] = now` that every successful fetch performs
(`app.py` lines 113-114, 156-157, 208-209, 240-241). -/
def Cache.put (c : Cache) (k : CKey) (v : Payload) (now : Int) : Cache :=
  c.set k ⟨some v, some now⟩

/-- Outcome of one call to a category's fetch function: the call either
raises an exception or returns a payload (possibly empty/falsy). -/
inductive FetchOutcome where
  | exn
  | ret (v : Payload)
  deriving Repr, DecidableEq

/-- The fixed, ordered list of categories refreshed by one pass of
`update_cache` (`cache_operations`, `app.py` lines 100-107). -/
def cacheOperations : List CKey :=
  [.stocks, .indices, .top_gainers, .top_losers, .sectors, .merolagani_latest]

/-- One iteration of the `update_cache` loop body (`app.py` lines
109-122): an exception is caught and the loop continues; a truthy result
replaces the entry's `data` and `last_updated` together; a falsy result
is only logged. -/
def updateStep (c : Cache) (k : CKey) (out : FetchOutcome) (now : Int) : Cache :=
  match out with
  | .exn => c
  | .ret v => if truthy v then c.put k v now else c

/-- The `update_cache` loop over a list of category keys: each iteration
invokes the category's fetch function (recorded in the attempted list)
and applies `updateStep`.  `fetch k` is the outcome of the call and
`time k` the value of `datetime.now()` at that iteration. -/
def runPass (fetch : CKey → FetchOutcome) (time : CKey → Int) :
    Cache → List CKey → Cache × List CKey
  | c, [] => (c, [])
  | c, k :: rest =>
    let c1 := updateStep c k (fetch k) (time k)
    let r := runPass fetch time c1 rest
    (r.1, k :: r.2)

/-- Embedding of `update_cache` (`app.py`, lines 96-124): one refresh pass over the
fixed category list, returning the resulting cache and the list of
categories whose fetch was attempted, in order. -/
def update_cache (fetch : CKey → FetchOutcome) (time : CKey → Int) (c : Cache) :
    Cache × List CKey :=
  runPass fetch time c cacheOperations

/-- The JSON body of a successful market-data response: the payload, the
`cached` flag, and the `last_updated` timestamp it reports. -/
structure ApiResponse where
  data : Payload
  cached : Bool
  last_updated : Int
  deriving Repr, DecidableEq

/-- The observable outcome of a read-path request: a success body, a 404
"no data available" response, or a 500 error response (an exception
reaching the handler's error path). -/
inductive ReadOutcome where
  | ok (r : ApiResponse)
  | notFound
  | serverError
  deriving Repr, DecidableEq

/-- Embedding of `get_stocks` (`app.py`, lines 134-165).  `fetch` is the outcome of
the single `nepse_service.get_all_stocks()` call the handler may make;
the result carries the response, the cache after the request and the
number of fetch-function calls performed.  In the cache-valid branch the
entry's fields are necessarily populated (the validity check required
both); were they not, the `.isoformat()` / `len` access on `None` would
raise, which `api_error_handler` turns into a 500. -/
def get_stocks (c : Cache) (ttl now : Int) (fetch : FetchOutcome) :
    ReadOutcome × Cache × Nat :=
  if is_cache_valid c ttl now "stocks" then
    match (c.get .stocks).data, (c.get .stocks).last_updated with
    | some d, some t => (.ok ⟨d, true, t⟩, c, 0)
    | _, _ => (.serverError, c, 0)
  else
    match fetch with
    | .exn => (.serverError, c, 1)
    | .ret stocks =>
      if truthy stocks then
        (.ok ⟨stocks, false, now⟩, c.put .stocks stocks now, 1)
      else (.notFound, c, 1)

/-- Embedding of `get_indices` (`app.py`, lines 194-222).  Unlike `get_stocks`, a
falsy fetch result is still returned as a success body with
`cached: false`; only a truthy result updates the cache. -/
def get_indices (c : Cache) (ttl now : Int) (fetch : FetchOutcome) :
    ReadOutcome × Cache × Nat :=
  if is_cache_valid c ttl now "indices" then
    match (c.get .indices).data, (c.get .indices).last_updated with
    | some d, some t => (.ok ⟨d, true, t⟩, c, 0)
    | _, _ => (.serverError, c, 0)
  else
    match fetch with
    | .exn => (.serverError, c, 1)
    | .ret indices =>
      let c1 := if truthy indices then c.put .indices indices now else c
      (.ok ⟨indices, false, now⟩, c1, 1)

/-- Outcome of the HTTP call to the unofficial top-ten API inside
`NepseService.get_top_gainers`: a 200 response whose JSON is a list, a
200 response whose JSON is not a list, or a non-200 status / exception
(both of which reach the fallback computation). -/
inductive ApiResult where
  | listData (full : Payload)
  | nonList
  | failure
  deriving Repr, DecidableEq

/-- Insertion of a record into a descending-sorted list (the order
produced by `sorted(..., key=changePercent, reverse=True)`). -/
def insertDesc (x : Rec) : List Rec → List Rec
  | [] => [x]
  | y :: ys => if x ≤ y then y :: insertDesc x ys else x :: y :: ys

/-- Sort records by `changePercent` in descending order
(`sorted(all_stocks, key=lambda x: x.get('changePercent', 0),
reverse=True)`). -/
def sortDesc : List Rec → List Rec
  | [] => []
  | x :: xs => insertDesc x (sortDesc xs)

/-- Embedding of `NepseService.get_top_gainers` (`nepse_service.py`, lines 79-97):
on a 200 list response return `data[:limit]`; on a 200 non-list response
return `[]`; otherwise fall back to sorting `get_all_stocks()` (outcome
`allStocks`; `none` models an exception in the fallback, caught and
turned into `[]`) and return the first `limit` records. -/
def nepse_get_top_gainers (api : ApiResult) (allStocks : Option Payload)
    (limit : Nat) : Payload :=
  match api with
  | .listData data => data.take limit
  | .nonList => []
  | .failure =>
    match allStocks with
    | some stocks => (sortDesc stocks).take limit
    | none => []

/-- Embedding of the `get_top_gainers` route (`app.py`, lines 224-254).  The request's
`limit` (default 10) truncates the cached list in the cache-valid branch;
in the fetch branch the handler calls
`nepse_service.get_top_gainers(limit)` and stores its (already
truncated) result when truthy. -/
def get_top_gainers_route (c : Cache) (ttl now : Int) (limit : Nat)
    (api : ApiResult) (allStocks : Option Payload) : ReadOutcome × Cache × Nat :=
  if is_cache_valid c ttl now "top_gainers" then
    match (c.get .top_gainers).data, (c.get .top_gainers).last_updated with
    | some d, some t => (.ok ⟨d.take limit, true, t⟩, c, 0)
    | _, _ => (.serverError, c, 0)
  else
    let top_gainers := nepse_get_top_gainers api allStocks limit
    let c1 := if truthy top_gainers then c.put .top_gainers top_gainers now else c
    (.ok ⟨top_gainers.take limit, false, now⟩, c1, 1)

/-- The scheduler's fetch for the `top_gainers` category
(`app.py` line 103): `nepse_service.get_top_gainers()` with the default
`limit=10`. -/
def scheduler_fetch_top_gainers (api : ApiResult) (allStocks : Option Payload) :
    Payload :=
  nepse_get_top_gainers api allStocks 10

/-- The invariant of one cache entry: `data` and `last_updated` are
absent together. -/
def entryInv (e : CacheEntry) : Prop := e.data = none ↔ e.last_updated = none

/-- The data/timestamp invariant over the whole cache. -/
def CacheInv (c : Cache) : Prop :=
  entryInv c.stocks ∧ entryInv c.indices ∧ entryInv c.top_gainers ∧
    entryInv c.top_losers ∧ entryInv c.sectors ∧ entryInv c.merolagani_latest

instance (e : CacheEntry) : Decidable (entryInv e) := by
  unfold entryInv; infer_instance

instance (c : Cache) : Decidable (CacheInv c) := by
  unfold CacheInv; infer_instance

lemma get_set_same (c : Cache) (k : CKey) (e : CacheEntry) : (c.set k e).get k = e := by
  cases k <;> rfl

lemma get_set_ne (c : Cache) (k j : CKey) (e : CacheEntry) (h : j ≠ k) :
    (c.set k e).get j = c.get j := by
  cases k <;> cases j <;> first | exact absurd rfl h | rfl

lemma get_put_same (c : Cache) (k : CKey) (v : Payload) (t : Int) :
    (c.put k v t).get k = ⟨some v, some t⟩ :=
  get_set_same c k _

lemma get_put_ne (c : Cache) (k j : CKey) (v : Payload) (t : Int) (h : j ≠ k) :
    (c.put k v t).get j = c.get j :=
  get_set_ne c k j _ h

lemma keyOfString_name (k : CKey) : keyOfString k.name = some k := by
  cases k <;> rfl

lemma is_cache_valid_iff (c : Cache) (ttl now : Int) (k : CKey) :
    is_cache_valid c ttl now k.name = true ↔
      (∃ d, (c.get k).data = some d) ∧
        ∃ t, (c.get k).last_updated = some t ∧ now - t < ttl := by
  unfold is_cache_valid
  rw [keyOfString_name]
  cases hd : (c.get k).data <;> cases ht : (c.get k).last_updated <;> simp [hd, ht]

lemma updateStep_get_ne (c : Cache) (k j : CKey) (out : FetchOutcome) (t : Int)
    (h : j ≠ k) : (updateStep c k out t).get j = c.get j := by
  unfold updateStep
  cases out with
  | exn => rfl
  | ret v =>
    by_cases hv : truthy v
    · simp only [hv, if_true]
      exact get_put_ne c k j v t h
    · simp [hv]

lemma updateStep_get_ret (c : Cache) (k : CKey) (v : Payload) (t : Int)
    (hv : truthy v = true) :
    (updateStep c k (.ret v) t).get k = ⟨some v, some t⟩ := by
  unfold updateStep
  simp only [hv, if_true]
  exact get_put_same c k v t

lemma updateStep_fail (c : Cache) (k : CKey) (out : FetchOutcome) (t : Int)
    (h : out = .exn ∨ ∃ v, out = .ret v ∧ truthy v = false) :
    updateStep c k out t = c := by
  rcases h with h | ⟨v, hv, hfalse⟩
  · subst h; rfl
  · subst hv; unfold updateStep; simp [hfalse]

lemma runPass_attempts (fetch : CKey → FetchOutcome) (time : CKey → Int) :
    ∀ (ks : List CKey) (c : Cache), (runPass fetch time c ks).2 = ks := by
  intro ks
  induction ks with
  | nil => intro c; rfl
  | cons k rest ih => intro c; simp [runPass, ih]

lemma runPass_get_not_mem (fetch : CKey → FetchOutcome) (time : CKey → Int) :
    ∀ (ks : List CKey) (c : Cache) (j : CKey), j ∉ ks →
      (runPass fetch time c ks).1.get j = c.get j := by
  intro ks
  induction ks with
  | nil => intro c j _; rfl
  | cons k rest ih =>
    intro c j hj
    rw [List.mem_cons] at hj
    push_neg at hj
    simp only [runPass]
    rw [ih _ j hj.2, updateStep_get_ne _ _ _ _ _ hj.1]

lemma runPass_get_ret (fetch : CKey → FetchOutcome) (time : CKey → Int) :
    ∀ (ks : List CKey) (c : Cache) (j : CKey) (v : Payload), j ∈ ks → ks.Nodup →
      fetch j = .ret v → truthy v = true →
      (runPass fetch time c ks).1.get j = ⟨some v, some (time j)⟩ := by
  intro ks
  induction ks with
  | nil => intro c j v hj; exact absurd hj (List.not_mem_nil j)
  | cons k rest ih =>
    intro c j v hj hnd hf hv
    rw [List.nodup_cons] at hnd
    simp only [runPass]
    rcases List.mem_cons.mp hj with hjk | hjrest
    · subst hjk
      rw [runPass_get_not_mem _ _ _ _ _ hnd.1, hf, updateStep_get_ret _ _ _ _ hv]
    · exact ih _ j v hjrest hnd.2 hf hv

lemma runPass_get_fail (fetch : CKey → FetchOutcome) (time : CKey → Int)
    (j : CKey) (h : fetch j = .exn ∨ ∃ v, fetch j = .ret v ∧ truthy v = false) :
    ∀ (ks : List CKey) (c : Cache),
      (runPass fetch time c ks).1.get j = c.get j := by
  intro ks
  induction ks with
  | nil => intro c; rfl
  | cons k rest ih =>
    intro c
    simp only [runPass]
    rw [ih]
    by_cases hjk : j = k
    · subst hjk
      rw [updateStep_fail _ _ _ _ h]
    · rw [updateStep_get_ne _ _ _ _ _ hjk]

lemma mem_cacheOperations (k : CKey) : k ∈ cacheOperations := by
  cases k <;> simp [cacheOperations]

lemma nodup_cacheOperations : cacheOperations.Nodup := by decide

lemma entryInv_both_some (v : Payload) (t : Int) : entryInv ⟨some v, some t⟩ := by
  simp [entryInv]

lemma cacheInv_set (c : Cache) (k : CKey) (e : CacheEntry) (hc : CacheInv c)
    (he : entryInv e) : CacheInv (c.set k e) := by
  cases k <;> simp only [CacheInv, Cache.set] at hc ⊢ <;> tauto

lemma cacheInv_updateStep (c : Cache) (k : CKey) (out : FetchOutcome) (t : Int)
    (hc : CacheInv c) : CacheInv (updateStep c k out t) := by
  unfold updateStep
  cases out with
  | exn => exact hc
  | ret v =>
    by_cases hv : truthy v
    · simp only [hv, if_true]
      exact cacheInv_set c k _ hc (entryInv_both_some v t)
    · simpa [hv] using hc

lemma cacheInv_runPass (fetch : CKey → FetchOutcome) (time : CKey → Int) :
    ∀ (ks : List CKey) (c : Cache), CacheInv c → CacheInv (runPass fetch time c ks).1 := by
  intro ks
  induction ks with
  | nil => intro c hc; exact hc
  | cons k rest ih =>
    intro c hc
    exact ih _ (cacheInv_updateStep c k _ _ hc)

/-- Claim C1, counterexample: the validity check is not a function of the
timestamp alone — on an entry whose `last_updated` is present (0) and
fresh (0 - 0 < 300) but whose `data` is `None`, `is_cache_valid` returns
false, while the claimed iff requires true. -/
theorem validity_pure_function_counterexample :
    ((initCache.set .stocks ⟨none, some 0⟩).get .stocks).last_updated = some 0 ∧
    ((0 : Int) - 0 < 300) ∧
    is_cache_valid (initCache.set .stocks ⟨none, some 0⟩) 300 0 "stocks" = false := by
  decide

/-- Claim C1, amended: for every category key, `is_cache_valid` returns
true iff the entry has a data value AND a last-updated timestamp and
`now - last_updated < CACHE_TIMEOUT`; in particular it returns false
whenever the timestamp (or the data) is absent. -/
theorem is_cache_valid_characterization (c : Cache) (ttl now : Int) (k : CKey) :
    is_cache_valid c ttl now k.name = true ↔
      (∃ d, (c.get k).data = some d) ∧
        ∃ t, (c.get k).last_updated = some t ∧ now - t < ttl :=
  is_cache_valid_iff c ttl now k

/-- Claim C2, counterexample: the code performs no timestamp comparison;
after `put(v1, t1=5)` a later `put(v2, t2=3)` with the older timestamp
overwrites the entry, so the state after both operations differs from the
state after the first put — the older write is not rejected. -/
theorem put_write_monotonicity_counterexample :
    (3 : Int) < 5 ∧
    ((initCache.put .stocks [1] 5).put .stocks [2] 3).get .stocks ≠
      (initCache.put .stocks [1] 5).get .stocks ∧
    ((initCache.put .stocks [1] 5).put .stocks [2] 3).get .stocks =
      ⟨some [2], some 3⟩ := by
  decide

/-- Claim C2, amended: cache puts are unconditional last-write-wins — for
any category, after `put(v1, t1)` followed by `put(v2, t2)`, even with
`t2 < t1`, the entry equals the state after `put(v2, t2)`; no put is ever
rejected or skipped by a timestamp comparison. -/
theorem put_last_write_wins (c : Cache) (k : CKey) (v1 v2 : Payload) (t1 t2 : Int)
    (hlt : t2 < t1) :
    ((c.put k v1 t1).put k v2 t2).get k = ⟨some v2, some t2⟩ :=
  get_put_same _ k v2 t2

theorem put_last_write_wins_witness :
    ((initCache.put .stocks [1] 5).put .stocks [2] 3).get .stocks =
      ⟨some [2], some 3⟩ :=
  put_last_write_wins initCache .stocks [1] [2] 5 3 (by decide)

/-- Claim C3: failure isolation in a refresh pass — whatever category's
fetch raises, `update_cache` still attempts every category of the fixed
list in order, and a successful truthy fetch for any other category still
updates that category's entry with the fetched data and the iteration's
current time. -/
theorem refresh_failure_isolation (fetch : CKey → FetchOutcome) (time : CKey → Int)
    (c : Cache) (a k : CKey) (hexn : fetch a = .exn) (hak : k ≠ a)
    (v : Payload) (hk : fetch k = .ret v) (hv : truthy v = true) :
    (update_cache fetch time c).2 = cacheOperations ∧
    (update_cache fetch time c).1.get k = ⟨some v, some (time k)⟩ :=
  ⟨runPass_attempts fetch time cacheOperations c,
    runPass_get_ret fetch time cacheOperations c k v (mem_cacheOperations k)
      nodup_cacheOperations hk hv⟩

theorem refresh_failure_isolation_witness :
    (update_cache (fun j => match j with | .stocks => .exn | _ => .ret [1])
        (fun _ => 0) initCache).2 = cacheOperations ∧
    (update_cache (fun j => match j with | .stocks => .exn | _ => .ret [1])
        (fun _ => 0) initCache).1.get .indices = ⟨some [1], some 0⟩ :=
  refresh_failure_isolation _ _ initCache .stocks .indices rfl (by decide) [1] rfl
    (by decide)

/-- Claim C4: no clobber on failure — if a category's fetch during a
refresh pass raises or returns a falsy result, that category's entry
(both `data` and `last_updated`) after the pass is exactly what it was
before. -/
theorem refresh_no_clobber (fetch : CKey → FetchOutcome) (time : CKey → Int)
    (c : Cache) (k : CKey)
    (hfail : fetch k = .exn ∨ ∃ v, fetch k = .ret v ∧ truthy v = false) :
    (update_cache fetch time c).1.get k = c.get k :=
  runPass_get_fail fetch time k hfail cacheOperations c

theorem refresh_no_clobber_witness :
    (update_cache (fun _ => .exn) (fun _ => 0)
        (initCache.put .sectors [9] 2)).1.get .sectors =
      (initCache.put .sectors [9] 2).get .sectors :=
  refresh_no_clobber _ _ (initCache.put .sectors [9] 2) .sectors (Or.inl rfl)

/-- Claim C8, counterexample: for a key outside the fixed set the cache
validity check does not fail fast — it silently returns the default
`false`, the same value it returns for a known key with an empty entry;
no `InvalidKey` error exists in the code. -/
theorem unknown_key_no_failure_counterexample :
    is_cache_valid initCache 300 0 "floorsheet" = false ∧
    is_cache_valid initCache 300 0 "floorsheet" =
      is_cache_valid initCache 300 0 "stocks" := by
  decide

/-- Claim C8, amended: for every key outside the fixed category set,
`is_cache_valid` returns false (treating the unknown key like an invalid
cache entry) rather than raising any error. -/
theorem unknown_key_is_invalid (c : Cache) (ttl now : Int) (s : String)
    (h : keyOfString s = none) : is_cache_valid c ttl now s = false := by
  unfold is_cache_valid
  rw [h]

theorem unknown_key_is_invalid_witness :
    is_cache_valid initCache 300 0 "floorsheet" = false :=
  unknown_key_is_invalid initCache 300 0 "floorsheet" (by decide)

/-- Claim C5: when the entry is populated and fresh at request time, the
read handlers (`get_stocks`, `get_indices`) return the cached value with
`cached = true` and `last_updated` equal to the stored timestamp, leave
the cache unchanged, and perform zero calls to the fetch function. -/
theorem read_serves_cache_when_valid (c : Cache) (ttl now : Int) :
    (∀ d t fetch, (c.get .stocks).data = some d →
      (c.get .stocks).last_updated = some t → now - t < ttl →
      get_stocks c ttl now fetch = (.ok ⟨d, true, t⟩, c, 0)) ∧
    (∀ d t fetch, (c.get .indices).data = some d →
      (c.get .indices).last_updated = some t → now - t < ttl →
      get_indices c ttl now fetch = (.ok ⟨d, true, t⟩, c, 0)) := by
  constructor
  · intro d t fetch hd ht hlt
    have hvalid : is_cache_valid c ttl now "stocks" = true :=
      (is_cache_valid_iff c ttl now .stocks).mpr ⟨⟨d, hd⟩, t, ht, hlt⟩
    simp [get_stocks, hvalid, hd, ht]
  · intro d t fetch hd ht hlt
    have hvalid : is_cache_valid c ttl now "indices" = true :=
      (is_cache_valid_iff c ttl now .indices).mpr ⟨⟨d, hd⟩, t, ht, hlt⟩
    simp [get_indices, hvalid, hd, ht]

theorem read_serves_cache_when_valid_witness :
    get_stocks (initCache.set .stocks ⟨some [7], some 10⟩) 300 100 .exn =
      (.ok ⟨[7], true, 10⟩, initCache.set .stocks ⟨some [7], some 10⟩, 0) :=
  (read_serves_cache_when_valid _ 300 100).1 [7] 10 .exn rfl rfl (by decide)

/-- Claim C6: when the entry is empty or stale at request time, the read
handlers (`get_stocks`, `get_indices`) invoke the category's fetch
function exactly once, and when the fetch returns a truthy result they
store it together with the current time in the cache entry and return it
with `cached = false`. -/
theorem read_fetches_when_stale (c : Cache) (ttl now : Int) (fetch : FetchOutcome) :
    (is_cache_valid c ttl now "stocks" = false →
      (get_stocks c ttl now fetch).2.2 = 1 ∧
      ∀ v, fetch = .ret v → truthy v = true →
        get_stocks c ttl now fetch = (.ok ⟨v, false, now⟩, c.put .stocks v now, 1)) ∧
    (is_cache_valid c ttl now "indices" = false →
      (get_indices c ttl now fetch).2.2 = 1 ∧
      ∀ v, fetch = .ret v → truthy v = true →
        get_indices c ttl now fetch = (.ok ⟨v, false, now⟩, c.put .indices v now, 1)) := by
  constructor
  · intro hstale
    constructor
    · cases fetch with
      | exn => simp [get_stocks, hstale]
      | ret v =>
        by_cases hv : truthy v <;> simp [get_stocks, hstale, hv]
    · intro v hfv hv
      subst hfv
      simp [get_stocks, hstale, hv]
  · intro hstale
    constructor
    · cases fetch with
      | exn => simp [get_indices, hstale]
      | ret v =>
        by_cases hv : truthy v <;> simp [get_indices, hstale, hv]
    · intro v hfv hv
      subst hfv
      simp [get_indices, hstale, hv]

theorem read_fetches_when_stale_witness :
    (get_stocks initCache 300 0 (.ret [3])).2.2 = 1 ∧
    get_stocks initCache 300 0 (.ret [3]) =
      (.ok ⟨[3], false, 0⟩, initCache.put .stocks [3] 0, 1) := by
  have h := (read_fetches_when_stale initCache 300 0 (.ret [3])).1 (by decide)
  exact ⟨h.1, h.2 [3] rfl (by decide)⟩

/-- Claim C7, counterexample: the request's `limit` does affect what is
stored — on a cache miss with `limit = 1` and an upstream list
`[5, 4, 3]`, the route caches `[5]` (the service truncates before the
route caches), not the full list, and the resulting cache differs from
the one a `limit = 2` request would produce. -/
theorem limit_affects_cache_counterexample :
    ((get_top_gainers_route initCache 300 0 1 (.listData [5, 4, 3]) none).2.1.get
        .top_gainers).data = some [5] ∧
    (some [5] : Option Payload) ≠ some [5, 4, 3] ∧
    (get_top_gainers_route initCache 300 0 1 (.listData [5, 4, 3]) none).2.1 ≠
      (get_top_gainers_route initCache 300 0 2 (.listData [5, 4, 3]) none).2.1 := by
  decide

/-- Claim C7, amended: on a cache hit the `limit` is applied client-side
only — the response is the cached list truncated to the request's limit
and the cache is unchanged; but on a cache miss the limit is passed to
the service fetch, which truncates the upstream list to `limit` before
the route caches it, so the stored data does depend on the limit of the
request that populated it (the scheduler populates with the default
limit of 10). -/
theorem limit_client_side_on_hit_only (c : Cache) (ttl now : Int) (limit : Nat)
    (api : ApiResult) (allStocks : Option Payload) :
    (∀ d t, (c.get .top_gainers).data = some d →
      (c.get .top_gainers).last_updated = some t → now - t < ttl →
      get_top_gainers_route c ttl now limit api allStocks =
        (.ok ⟨d.take limit, true, t⟩, c, 0)) ∧
    (∀ full, api = .listData full →
      is_cache_valid c ttl now "top_gainers" = false →
      truthy (full.take limit) = true →
      ((get_top_gainers_route c ttl now limit api allStocks).2.1.get
          .top_gainers).data = some (full.take limit)) ∧
    (∀ full, scheduler_fetch_top_gainers (.listData full) allStocks =
      full.take 10) := by
  refine ⟨?_, ?_, fun full => rfl⟩
  · intro d t hd ht hlt
    have hvalid : is_cache_valid c ttl now "top_gainers" = true :=
      (is_cache_valid_iff c ttl now .top_gainers).mpr ⟨⟨d, hd⟩, t, ht, hlt⟩
    simp [get_top_gainers_route, hvalid, hd, ht]
  · intro full hapi hstale htr
    subst hapi
    simp [get_top_gainers_route, hstale, nepse_get_top_gainers, htr, get_put_same]

theorem limit_client_side_on_hit_only_witness :
    ((get_top_gainers_route initCache 300 0 1 (.listData [9, 8, 7]) none).2.1.get
        .top_gainers).data = some ([9, 8, 7].take 1) :=
  (limit_client_side_on_hit_only initCache 300 0 1 (.listData [9, 8, 7]) none).2.1
    [9, 8, 7] rfl (by decide) (by decide)

/-- Claim C9: the data/timestamp invariant — `data` is `None` iff
`last_updated` is `None` in every entry — holds initially and is
preserved by the scheduler's refresh pass and by every embedded read
handler: the two fields are only ever set together by a successful
fetch. -/
theorem cache_data_timestamp_invariant :
    CacheInv initCache ∧
    (∀ fetch time c, CacheInv c → CacheInv (update_cache fetch time c).1) ∧
    (∀ c ttl now fetch, CacheInv c → CacheInv (get_stocks c ttl now fetch).2.1) ∧
    (∀ c ttl now fetch, CacheInv c → CacheInv (get_indices c ttl now fetch).2.1) ∧
    (∀ c ttl now limit api allStocks, CacheInv c →
      CacheInv (get_top_gainers_route c ttl now limit api allStocks).2.1) := by
  refine ⟨by decide, ?_, ?_, ?_, ?_⟩
  · intro fetch time c hc
    exact cacheInv_runPass fetch time cacheOperations c hc
  · intro c ttl now fetch hc
    unfold get_stocks
    split
    · split <;> exact hc
    · cases fetch with
      | exn => exact hc
      | ret v =>
        by_cases hv : truthy v
        · simp only [hv, if_true]
          exact cacheInv_set c .stocks _ hc (entryInv_both_some v now)
        · simpa [hv] using hc
  · intro c ttl now fetch hc
    unfold get_indices
    split
    · split <;> exact hc
    · cases fetch with
      | exn => exact hc
      | ret v =>
        by_cases hv : truthy v
        · simp only [hv, if_true]
          exact cacheInv_set c .indices _ hc (entryInv_both_some v now)
        · simpa [hv] using hc
  · intro c ttl now limit api allStocks hc
    unfold get_top_gainers_route
    split
    · split <;> exact hc
    · by_cases hv : truthy (nepse_get_top_gainers api allStocks limit)
      · simp only [hv, if_true]
        exact cacheInv_set c .top_gainers _ hc (entryInv_both_some _ now)
      · simpa [hv] using hc

theorem cache_data_timestamp_invariant_witness :
    CacheInv (update_cache (fun _ => .ret [1]) (fun _ => 0) initCache).1 :=
  cache_data_timestamp_invariant.2.1 _ _ initCache (by decide)

/-- Claim C10: reads are pure with respect to the store — whenever the
validity check succeeds, the cached-serve branch of each embedded read
handler returns the cache exactly as it was (truncating the cached
top-gainers list for the response does not modify the stored list). -/
theorem cached_read_is_pure (c : Cache) (ttl now : Int) :
    (∀ fetch, is_cache_valid c ttl now "stocks" = true →
      (get_stocks c ttl now fetch).2.1 = c) ∧
    (∀ fetch, is_cache_valid c ttl now "indices" = true →
      (get_indices c ttl now fetch).2.1 = c) ∧
    (∀ limit api allStocks, is_cache_valid c ttl now "top_gainers" = true →
      (get_top_gainers_route c ttl now limit api allStocks).2.1 = c) := by
  refine ⟨?_, ?_, ?_⟩
  · intro fetch hvalid
    simp only [get_stocks, hvalid, if_true]
    split <;> rfl
  · intro fetch hvalid
    simp only [get_indices, hvalid, if_true]
    split <;> rfl
  · intro limit api allStocks hvalid
    simp only [get_top_gainers_route, hvalid, if_true]
    split <;> rfl

theorem cached_read_is_pure_witness :
    (get_top_gainers_route (initCache.set .top_gainers ⟨some [4, 2], some 10⟩)
        300 100 1 .failure none).2.1 =
      initCache.set .top_gainers ⟨some [4, 2], some 10⟩ :=
  (cached_read_is_pure _ 300 100).2.2 1 .failure none (by decide)

end NepseApp
